import Mathlib

/-!
Shallow embedding of `src/witheringMixin.js` from `Zhong-Lab-UCSD/give-tree`:
a generation-based lazy eviction policy for nodes of a hierarchical cache.

Each node carries a generation stamp `lastUpdateGen` (JS `_lastUpdateGen`,
possibly unset, embedded as `Option Nat`).  The owning tree supplies the
current generation, the `lifeSpan` setting (absent or zero disables the
policy, mirroring JS falsiness), the `neighboringLinks` flag and the
`MAX_GENERATION` modulus.  JS comparisons against `undefined` evaluate to
`false`; the helpers `jsGt` and `jsLe` reproduce that.

Host-tree primitives that are not part of `src/` (`firstChild`, `childNum`,
`values`, `clear`, `remove`) are modelled from the spec where this file
needs them; each such definition says so in its doc comment.
-/

namespace Withering

/-- Tree-level state consumed by the mixin: `lifeSpan` (absent or zero
disables generation tracking), the shared clock `currGen`
(JS `this.tree._currGen`), the `neighboringLinks` flag and the
`MAX_GENERATION` constant of the tree constructor. -/
structure Tree where
  lifeSpan : Option Nat
  currGen : Nat
  neighboringLinks : Bool
  maxGeneration : Nat

/-- Numeric value of `this.tree.lifeSpan` with absent read as `0`, so that
`lifeSpanVal t = 0` is exactly JS falsiness of `this.tree.lifeSpan`. -/
def Tree.lifeSpanVal (t : Tree) : Nat := t.lifeSpan.getD 0

/-- The age formula used by the `_shouldWither` getter
(`src/witheringMixin.js` lines 141-145): plain difference when the clock
has not wrapped past the stamp, wrapped difference through
`MAX_GENERATION` otherwise.  Computed in `Int` because JS numbers are not
truncated at zero. -/
def Tree.genAge (t : Tree) (s : Nat) : Int :=
  if s ≤ t.currGen then (t.currGen : Int) - (s : Int)
  else (t.currGen : Int) + ((t.maxGeneration : Int) - (s : Int))

/-- The age test of `_shouldWither`: `age > lifeSpan`, strict.  An unset
stamp makes every JS comparison in the ternary false, so the result is
`false`. -/
def Tree.tooOld (t : Tree) (g : Option Nat) : Bool :=
  match g with
  | none => false
  | some s => decide ((t.lifeSpanVal : Int) < t.genAge s)

/-- JS `a > b` on possibly-undefined operands: any comparison with
`undefined` is `false`. -/
def jsGt : Option Nat → Option Nat → Bool
  | some a, some b => decide (b < a)
  | _, _ => false

/-- JS `a <= c` where `a` may be undefined and `c` is a number. -/
def jsLe : Option Nat → Nat → Bool
  | some a, c => decide (a ≤ c)
  | none, _ => false

/-- JS truthiness of a possibly-unset numeric stamp: `0` and unset are
falsy. -/
def stampTruthy : Option Nat → Bool
  | some n => decide (n ≠ 0)
  | none => false

/-- The comparator `_genOlderThan(generationToComp)`
(`src/witheringMixin.js` lines 82-88):
`this.tree && this.tree.lifeSpan && generationToComp > this._lastUpdateGen
&& ((generationToComp <= this.tree._currGen) ===
(this._lastUpdateGen <= this.tree._currGen))`.  The first argument is
`this.tree`, the second the own stamp, the third the stamp compared. -/
def genOlderThan : Option Tree → Option Nat → Option Nat → Bool
  | none, _, _ => false
  | some t, own, cmp =>
    decide (t.lifeSpanVal ≠ 0) && jsGt cmp own &&
      (jsLe cmp t.currGen == jsLe own t.currGen)

mutual
/-- A witherable node: generation stamp plus the ordered child slots
(`this.values`). -/
inductive Node where
  | mk (lastUpdateGen : Option Nat) (values : Entries) : Node

/-- The ordered sequence of child slots of a node (the JS array
`this.values`). -/
inductive Entries where
  | nil : Entries
  | cons (head : Entry) (tail : Entries) : Entries

/-- One child slot: the `null` sentinel, a plain occupant without a
`wither` capability (optionally carrying a numeric `_lastUpdateGen`
field), or a witherable child node. -/
inductive Entry where
  | null : Entry
  | plain (lastUpdateGen : Option Nat) : Entry
  | child (node : Node) : Entry
end

/-- The stamp of a node. -/
def Node.lastUpdateGen : Node → Option Nat
  | .mk g _ => g

/-- The child slots of a node. -/
def Node.values : Node → Entries
  | .mk _ vs => vs

/-- Length of a slot sequence (JS `this.values.length`). -/
def Entries.length : Entries → Nat
  | .nil => 0
  | .cons _ tail => tail.length + 1

/-- The first slot, JS `this.values[0]` (`none` is `undefined`). -/
def Entries.head : Entries → Option Entry
  | .nil => none
  | .cons e _ => some e

/-- Modelled from the spec: `childNum` is "a count of occupied children",
the number of slots held by the node. -/
def Node.childNum : Node → Nat
  | .mk _ vs => vs.length

/-- JS `this.values[0] === null`: true exactly when the first slot exists
and is the `null` sentinel (`undefined === null` is false). -/
def Entries.isNullHead : Entries → Bool
  | .cons .null _ => true
  | _ => false

/-- The `_lastUpdateGen` field exposed by a slot occupant, when the
occupant is truthy and the field is a number (the truthy-and-numeric
guard on `value` and `value._lastUpdateGen` of the skew repair in
`wither`). -/
def Entry.stampField : Entry → Option Nat
  | .null => none
  | .plain g => g
  | .child n => n.lastUpdateGen

mutual
/-- The `_shouldWither` getter (`src/witheringMixin.js` lines 136-147):
`false` when the tree is absent or `lifeSpan` is falsy, otherwise
`!(this.firstChild && this.firstChild._shouldWither === false)` conjoined
with the age test. -/
def Node.shouldWither (tree : Option Tree) : Node → Bool
  | .mk g vs =>
    match tree with
    | none => false
    | some t =>
      if t.lifeSpanVal = 0 then false
      else !(firstChildYoung tree vs) && t.tooOld g

/-- The protection test `this.firstChild && this.firstChild._shouldWither
=== false` of the `_shouldWither` getter.  Modelled from the spec:
`firstChild` is the first child slot; a `null` slot is falsy, a plain
occupant has no `_shouldWither` field (so the strict equality with `false`
fails), and a child node recursively evaluates its own getter. -/
def firstChildYoung (tree : Option Tree) : Entries → Bool
  | .cons (.child c) _ => (Node.shouldWither tree c) == false
  | _ => false
end

/-- One iteration of the skew-repair loop body of `wither`: adopt the
stamp exposed by the slot when `this._genOlderThan(value._lastUpdateGen)`
holds, keep the current stamp otherwise (also when the slot exposes no
numeric stamp). -/
def repairStep (t : Tree) (g : Option Nat) (e : Entry) : Option Nat :=
  match e.stampField with
  | some s => if genOlderThan (some t) g (some s) then some s else g
  | none => g

/-- The skew-repair loop at the top of `wither` (`src/witheringMixin.js`
lines 103-111): `this.values.forEach(value => ...)`.  The JS loop mutates
`this._lastUpdateGen` in place, so each later slot is compared against the
stamp already updated by earlier slots; the fold threads that state. -/
def Entries.skewRepair (t : Tree) : Entries → Option Nat → Option Nat
  | .nil, g => g
  | .cons e rest, g => Entries.skewRepair t rest (repairStep t g e)

/-- The stamp held by `this._lastUpdateGen` after the skew-repair step at
the top of `wither`: repaired through the slots when
`this.tree.neighboringLinks`, untouched otherwise. -/
def repairedGen (t : Tree) (g : Option Nat) (vs : Entries) : Option Nat :=
  if t.neighboringLinks then Entries.skewRepair t vs g else g

mutual
/-- The sweep `wither()` (`src/witheringMixin.js` lines 99-129).  Returns the node
after the call together with the boolean result.  `clear(null)` is
modelled from the spec as replacing the content with the single empty
sentinel slot.  `this.remove(child, true, null)` followed by `index--` is
modelled from the spec as detaching the slot and re-examining the same
index, which on the remaining list is exactly continuing the sweep on the
tail. -/
def Node.wither (t : Tree) : Node → Node × Bool
  | .mk g vs =>
    if Node.shouldWither (some t) (.mk (repairedGen t g vs) vs) then
      (.mk (repairedGen t g vs) (.cons .null .nil), true)
    else
      (.mk (repairedGen t g vs) (Entries.sweep t vs),
        decide ((Entries.sweep t vs).length ≤ 1) && (Entries.sweep t vs).isNullHead)

/-- The child sweep of `wither` (`src/witheringMixin.js` lines 121-127):
slots in index order; a slot is recursed into only when it is truthy and
has a `wither` capability; a child whose `wither()` returns true is
detached and the same index re-examined. -/
def Entries.sweep (t : Tree) : Entries → Entries
  | .nil => .nil
  | .cons (.child c) rest =>
    if (Node.wither t c).2 then Entries.sweep t rest
    else .cons (.child (Node.wither t c).1) (Entries.sweep t rest)
  | .cons e rest => .cons e (Entries.sweep t rest)
end

/-- The stamp update of `mergeAfter(node)` (`src/witheringMixin.js` lines
63-73).  `node` is `none` when the argument is falsy, otherwise it carries
the incoming `_lastUpdateGen`; `result` is the truthiness of
`super.mergeAfter(...)`, owned by the host tree and taken as a parameter.
Returns the receiver stamp after the call. -/
def mergeAfterGen (tree : Option Tree) (own : Option Nat)
    (node : Option (Option Nat)) (result : Bool) : Option Nat :=
  let nodeGen : Option Nat :=
    match node with
    | some ng => if stampTruthy ng then ng else own
    | none => own
  if result && genOlderThan tree own nodeGen then nodeGen else own

/-- The hook `rejuvenate()` (`src/witheringMixin.js` lines 152-156): when
`this.tree && this.tree.lifeSpan`, set the stamp to the current
generation; otherwise leave it untouched. -/
def rejuvenateGen (tree : Option Tree) (g : Option Nat) : Option Nat :=
  match tree with
  | some t => if t.lifeSpanVal ≠ 0 then some t.currGen else g
  | none => g

/-- The call configuration of `traverse` and `getUncachedRange`: only the
`doNotWither` flag matters to this core.  `none` is an absent `props`. -/
structure Props where
  doNotWither : Bool

/-- JS truthiness of `props && props.doNotWither`. -/
def doNotWitherFlag : Option Props → Bool
  | some p => p.doNotWither
  | none => false

/-- The stamp effect of `traverse` (`src/witheringMixin.js` lines
158-167): after the base operation, rejuvenate unless
`props && props.doNotWither`. -/
def traverseGen (tree : Option Tree) (g : Option Nat)
    (props : Option Props) : Option Nat :=
  if !doNotWitherFlag props then rejuvenateGen tree g else g

/-- The stamp effect of `getUncachedRange` (`src/witheringMixin.js` lines
169-178): same shape as `traverse`. -/
def getUncachedRangeGen (tree : Option Tree) (g : Option Nat)
    (props : Option Props) : Option Nat :=
  if !doNotWitherFlag props then rejuvenateGen tree g else g

/-- The constructor stamp seeding (`src/witheringMixin.js` lines 47-61):
when `(props && props._currGen) || (this.tree && this.tree.lifeSpan)`,
set `_lastUpdateGen = props._currGen || this.tree._currGen`; otherwise the
field stays unset.  `propsCurrGen` is `props && props._currGen` collapsed
to one optional number (absent `props` and absent `_currGen` are both
falsy the same way). -/
def initLastUpdateGen (tree : Option Tree) (propsCurrGen : Option Nat) :
    Option Nat :=
  if stampTruthy propsCurrGen ||
      (match tree with | some t => decide (t.lifeSpanVal ≠ 0) | none => false) then
    if stampTruthy propsCurrGen then propsCurrGen
    else match tree with | some t => some t.currGen | none => none
  else none

mutual
/-- Modelled from the spec: with `lifeSpan` unset, `wither()` "always
returns based purely on structural emptiness, never evicting live
content".  This reference sweep never reads or writes any stamp: it only
detaches children that report structural emptiness and signals collapse
when at most one slot remains and the first slot is the empty sentinel. -/
def Node.structuralWither : Node → Node × Bool
  | .mk g vs =>
    let vs1 := Entries.structuralSweep vs
    (.mk g vs1, decide (vs1.length ≤ 1) && vs1.isNullHead)

/-- Modelled from the spec: the child sweep of the disabled-policy
reference `structuralWither`. -/
def Entries.structuralSweep : Entries → Entries
  | .nil => .nil
  | .cons (.child c) rest =>
    if (Node.structuralWither c).2 then Entries.structuralSweep rest
    else .cons (.child (Node.structuralWither c).1) (Entries.structuralSweep rest)
  | .cons e rest => .cons e (Entries.structuralSweep rest)
end

/-- Helper: with `lifeSpan` falsy the comparator is constantly false. -/
theorem genOlderThan_of_inactive (t : Tree) (h : t.lifeSpanVal = 0)
    (own cmp : Option Nat) : genOlderThan (some t) own cmp = false := by
  simp [genOlderThan, h]

/-- Helper: `isNullHead` agrees with `head = some null`. -/
theorem isNullHead_iff (es : Entries) :
    es.isNullHead = true ↔ es.head = some .null := by
  cases es with
  | nil => simp [Entries.isNullHead, Entries.head]
  | cons e tail =>
    cases e <;> simp [Entries.isNullHead, Entries.head]

/-- Helper: the comparator on two set stamps, unfolded to its three
conjuncts. -/
theorem genOlderThan_some_iff (t : Tree) (own cmp : Nat) :
    genOlderThan (some t) (some own) (some cmp) = true ↔
      (t.lifeSpanVal ≠ 0 ∧ own < cmp ∧
        ((cmp ≤ t.currGen) ↔ (own ≤ t.currGen))) := by
  simp [genOlderThan, jsGt, jsLe, and_assoc]

/-- C1: `_genOlderThan(generationToComp)` is true exactly when generation
tracking is active, the compared stamp is numerically greater than the own
stamp, and the two stamps sit on the same side of the current generation;
and at `MAX_GENERATION = 100`, current generation `5`, own stamp `98`,
compared stamp `3`, it is false. -/
theorem genOlderThan_characterization :
    (∀ (t : Tree) (own cmp : Nat),
      genOlderThan (some t) (some own) (some cmp) = true ↔
        (t.lifeSpanVal ≠ 0 ∧ own < cmp ∧
          ((cmp ≤ t.currGen) ↔ (own ≤ t.currGen)))) ∧
    genOlderThan (some ⟨some 10, 5, false, 100⟩) (some 98) (some 3) = false :=
  ⟨genOlderThan_some_iff, by decide⟩

/-- C2: with generation tracking active and the first-child protection not
applying, `_shouldWither` holds exactly when the age computed by the
(wraparound-aware) formula strictly exceeds `lifeSpan`; boundary cases:
at `lifeSpan = 10`, generation `20`, stamp `9` is eligible, stamp `10` is
not; at `MAX_GENERATION = 100`, generation `2`, stamp `95`, the wrapped
age is `7` and the node is not eligible. -/
theorem shouldWither_age_rule :
    (∀ (t : Tree) (g : Nat) (vs : Entries),
       t.lifeSpanVal ≠ 0 → firstChildYoung (some t) vs = false →
       (Node.shouldWither (some t) (.mk (some g) vs) = true ↔
         (t.lifeSpanVal : Int) < t.genAge g)) ∧
    Node.shouldWither (some ⟨some 10, 20, false, 100⟩) (.mk (some 9) .nil) = true ∧
    Node.shouldWither (some ⟨some 10, 20, false, 100⟩) (.mk (some 10) .nil) = false ∧
    Tree.genAge ⟨some 10, 2, false, 100⟩ 95 = 7 ∧
    Node.shouldWither (some ⟨some 10, 2, false, 100⟩) (.mk (some 95) .nil) = false := by
  refine ⟨?_, by decide, by decide, by decide, by decide⟩
  intro t g vs h1 h2
  simp [Node.shouldWither, h1, h2, Tree.tooOld]

/-- C2 witness: the eligible boundary case obtained from the general rule
at `lifeSpan = 10`, generation `20`, stamp `9`. -/
theorem shouldWither_age_rule_witness :
    Node.shouldWither (some ⟨some 10, 20, false, 100⟩) (.mk (some 9) .nil) = true :=
  (shouldWither_age_rule.1 ⟨some 10, 20, false, 100⟩ 9 .nil (by decide) rfl).mpr
    (by decide)

/-- C3: with generation tracking active, a first child whose own
`_shouldWither` is exactly false protects the node regardless of its age;
and the protection applies in exactly that case (absent first slot, a
`null` slot, a plain occupant, or a child that is itself eligible all
leave eligibility to the age test alone). -/
theorem shouldWither_protection :
    (∀ (t : Tree) (g : Option Nat) (c : Node) (rest : Entries),
       t.lifeSpanVal ≠ 0 →
       Node.shouldWither (some t) c = false →
       Node.shouldWither (some t) (.mk g (.cons (.child c) rest)) = false) ∧
    (∀ (t : Tree) (g : Option Nat) (vs : Entries),
       t.lifeSpanVal ≠ 0 →
       firstChildYoung (some t) vs = false →
       Node.shouldWither (some t) (.mk g vs) = t.tooOld g) ∧
    (∀ (t : Tree) (vs : Entries),
       firstChildYoung (some t) vs = true ↔
         ∃ c rest, vs = .cons (.child c) rest ∧
           Node.shouldWither (some t) c = false) := by
  refine ⟨?_, ?_, ?_⟩
  · intro t g c rest h1 h2
    simp [Node.shouldWither, firstChildYoung, h1, h2]
  · intro t g vs h1 h2
    simp [Node.shouldWither, h1, h2]
  · intro t vs
    constructor
    · intro h
      cases vs with
      | nil => simp [firstChildYoung] at h
      | cons e rest =>
        cases e with
        | null => simp [firstChildYoung] at h
        | plain g => simp [firstChildYoung] at h
        | child c =>
          refine ⟨c, rest, rfl, ?_⟩
          simpa [firstChildYoung] using h
    · rintro ⟨c, rest, rfl, hc⟩
      simp [firstChildYoung, hc]

/-- C3 witness: a stale parent protected by an explicitly young first
child, from the general protection rule. -/
theorem shouldWither_protection_witness :
    Node.shouldWither (some ⟨some 10, 20, false, 100⟩)
      (.mk (some 1) (.cons (.child (.mk (some 20) .nil)) .nil)) = false :=
  shouldWither_protection.1 ⟨some 10, 20, false, 100⟩ (some 1)
    (.mk (some 20) .nil) .nil (by decide) (by decide)

/-- C5: the child sweep of `wither` visits the slots in index order, leaves
`null` slots and occupants without a `wither` capability untouched,
detaches a child whose recursive `wither()` returns true and re-examines
the slot at the same index; with three children of which the first two
wither and the third survives, only the survivor remains, at index 0, and
the parent itself does not report collapse. -/
theorem sweep_rule :
    (∀ (t : Tree) (rest : Entries),
        Entries.sweep t (.cons .null rest) = .cons .null (Entries.sweep t rest)) ∧
    (∀ (t : Tree) (g : Option Nat) (rest : Entries),
        Entries.sweep t (.cons (.plain g) rest) =
          .cons (.plain g) (Entries.sweep t rest)) ∧
    (∀ (t : Tree) (c : Node) (rest : Entries),
        Entries.sweep t (.cons (.child c) rest) =
          if (Node.wither t c).2 then Entries.sweep t rest
          else .cons (.child (Node.wither t c).1) (Entries.sweep t rest)) ∧
    Node.wither ⟨some 1, 10, false, 100⟩
      (.mk (some 10) (.cons (.child (.mk (some 1) .nil))
        (.cons (.child (.mk (some 1) .nil))
          (.cons (.child (.mk (some 10) .nil)) .nil)))) =
      (.mk (some 10) (.cons (.child (.mk (some 10) .nil)) .nil), false) :=
  ⟨fun _ _ => rfl, fun _ _ _ => rfl, fun _ _ _ => rfl, rfl⟩

/-- C4 counterexample: with `neighboringLinks` enabled the skew repair can
rejuvenate the node before the self-eviction check, so on a node for
which the eligibility rule holds on entry, `wither()` can still return
false and leave the content in place. -/
theorem wither_on_entry_counterexample :
    Node.shouldWither (some ⟨some 3, 10, true, 100⟩)
      (.mk (some 1) (.cons (.plain (some 10)) .nil)) = true ∧
    Node.wither ⟨some 3, 10, true, 100⟩
      (.mk (some 1) (.cons (.plain (some 10)) .nil)) =
      (.mk (some 10) (.cons (.plain (some 10)) .nil), false) :=
  ⟨by decide, rfl⟩

/-- C4 amended: `wither()` reports true in exactly two cases — the
eligibility rule holds after the skew-repair step (identical to entry
whenever `neighboringLinks` is off), in which case the content is cleared
to the empty sentinel and no child is visited, or after the child sweep at
most one slot remains and the first slot is the empty sentinel; in every
other case it reports false. -/
theorem wither_cases :
    ∀ (t : Tree) (g : Option Nat) (vs : Entries),
      ((Node.wither t (.mk g vs)).2 = true ↔
        (Node.shouldWither (some t) (.mk (repairedGen t g vs) vs) = true ∨
          ((Entries.sweep t vs).length ≤ 1 ∧
            (Entries.sweep t vs).head = some .null))) ∧
      (Node.shouldWither (some t) (.mk (repairedGen t g vs) vs) = true →
        Node.wither t (.mk g vs) =
          (.mk (repairedGen t g vs) (.cons .null .nil), true)) ∧
      (t.neighboringLinks = false → repairedGen t g vs = g) := by
  intro t g vs
  refine ⟨?_, ?_, ?_⟩
  · by_cases h : Node.shouldWither (some t) (.mk (repairedGen t g vs) vs) = true
    · simp [Node.wither, h]
    · simp [Node.wither, h, isNullHead_iff]
  · intro h
    simp [Node.wither, h]
  · intro h
    simp [repairedGen, h]

/-- C4 witness: a self-evicting leaf obtained from the general case split,
with `neighboringLinks` off. -/
theorem wither_cases_witness :
    Node.wither ⟨some 1, 10, false, 100⟩ (.mk (some 1) .nil) =
      (.mk (repairedGen ⟨some 1, 10, false, 100⟩ (some 1) .nil)
        (.cons .null .nil), true) :=
  (wither_cases ⟨some 1, 10, false, 100⟩ (some 1) .nil).2.1 (by decide)

/-- Helper: with `lifeSpan` falsy one repair-loop iteration keeps the
stamp. -/
theorem repairStep_of_inactive (t : Tree) (h : t.lifeSpanVal = 0)
    (g : Option Nat) (e : Entry) : repairStep t g e = g := by
  unfold repairStep
  cases e.stampField with
  | none => rfl
  | some s => simp [genOlderThan_of_inactive t h]

/-- Helper: with `lifeSpan` falsy the whole skew repair keeps the stamp. -/
theorem skewRepair_of_inactive (t : Tree) (h : t.lifeSpanVal = 0) :
    (es : Entries) → ∀ g : Option Nat, Entries.skewRepair t es g = g
  | .nil => fun _ => rfl
  | .cons e rest => fun g => by
    rw [Entries.skewRepair, repairStep_of_inactive t h,
      skewRepair_of_inactive t h rest]

/-- Helper: with `lifeSpan` falsy no node passes the eligibility rule. -/
theorem shouldWither_of_inactive (t : Tree) (h : t.lifeSpanVal = 0)
    (n : Node) : Node.shouldWither (some t) n = false := by
  cases n with
  | mk g vs => simp [Node.shouldWither, h]

mutual
/-- Helper: with `lifeSpan` falsy, `wither` coincides with the purely
structural reference sweep. -/
theorem wither_of_inactive (t : Tree) (h : t.lifeSpanVal = 0) :
    (n : Node) → Node.wither t n = Node.structuralWither n
  | .mk g vs => by
    have hs := sweep_of_inactive t h vs
    simp [Node.wither, Node.structuralWither, shouldWither_of_inactive t h,
      repairedGen, skewRepair_of_inactive t h, hs]

/-- Helper: with `lifeSpan` falsy, the child sweep coincides with the
purely structural reference sweep. -/
theorem sweep_of_inactive (t : Tree) (h : t.lifeSpanVal = 0) :
    (es : Entries) → Entries.sweep t es = Entries.structuralSweep es
  | .nil => rfl
  | .cons .null rest => by
    have hr := sweep_of_inactive t h rest
    simp [Entries.sweep, Entries.structuralSweep, hr]
  | .cons (.plain g) rest => by
    have hr := sweep_of_inactive t h rest
    simp [Entries.sweep, Entries.structuralSweep, hr]
  | .cons (.child c) rest => by
    have hc := wither_of_inactive t h c
    have hr := sweep_of_inactive t h rest
    simp [Entries.sweep, Entries.structuralSweep, hc, hr]
end

/-- C6 counterexample: with `lifeSpan` absent, constructing a node with an
explicit `props._currGen` still writes the `_lastUpdateGen` stamp, so the
stamp is not left untouched by every operation of the core. -/
theorem disabled_constructor_counterexample :
    initLastUpdateGen (some ⟨none, 7, false, 100⟩) (some 5) = some 5 := by
  decide

/-- C6 amended: with `lifeSpan` absent or zero, `mergeAfter`,
`rejuvenate`, `traverse`, `getUncachedRange` leave the stamp unchanged,
the constructor leaves it unset unless an explicit truthy `props._currGen`
is supplied, and `wither` coincides with the purely structural reference
sweep — it never clears live content and its outcome ignores every
stamp. -/
theorem disabled_policy_noop :
    ∀ (t : Tree), t.lifeSpanVal = 0 →
      (∀ own node ok, mergeAfterGen (some t) own node ok = own) ∧
      (∀ g, rejuvenateGen (some t) g = g) ∧
      (∀ g p, traverseGen (some t) g p = g) ∧
      (∀ g p, getUncachedRangeGen (some t) g p = g) ∧
      (∀ p, stampTruthy p = false → initLastUpdateGen (some t) p = none) ∧
      (∀ n : Node, Node.wither t n = Node.structuralWither n) := by
  intro t h
  refine ⟨?_, ?_, ?_, ?_, ?_, wither_of_inactive t h⟩
  · intro own node ok
    simp [mergeAfterGen, genOlderThan_of_inactive t h]
  · intro g
    simp [rejuvenateGen, h]
  · intro g p
    simp [traverseGen, rejuvenateGen, h]
  · intro g p
    simp [getUncachedRangeGen, rejuvenateGen, h]
  · intro p hp
    simp [initLastUpdateGen, hp, h]

/-- C6 witness: the disabled-policy equalities instantiated on a concrete
tree with absent `lifeSpan`. -/
theorem disabled_policy_noop_witness :
    Node.wither ⟨none, 7, false, 100⟩ (.mk (some 1) (.cons .null .nil)) =
      Node.structuralWither (.mk (some 1) (.cons .null .nil)) :=
  (disabled_policy_noop ⟨none, 7, false, 100⟩ rfl).2.2.2.2.2
    (.mk (some 1) (.cons .null .nil))

/-- Helper: an adoption sanctioned by the comparator strictly lowers the
age computed by the wraparound formula of `_shouldWither`. -/
theorem genAge_lt_of_genOlderThan (t : Tree) (a b : Nat)
    (h : genOlderThan (some t) (some a) (some b) = true) :
    t.genAge b < t.genAge a := by
  rw [genOlderThan_some_iff] at h
  obtain ⟨-, hab, hside⟩ := h
  simp only [Tree.genAge]
  split_ifs with hb ha ha
  · omega
  · exact absurd (hside.mp hb) ha
  · exact absurd (hside.mpr ha) hb
  · omega

/-- Helper: one repair-loop iteration either keeps the stamp or strictly
lowers its age. -/
theorem repairStep_age (t : Tree) (a : Nat) (e : Entry) :
    repairStep t (some a) e = some a ∨
      ∃ s, repairStep t (some a) e = some s ∧ t.genAge s < t.genAge a := by
  unfold repairStep
  cases hst : e.stampField with
  | none => exact Or.inl rfl
  | some s =>
    by_cases hg : genOlderThan (some t) (some a) (some s) = true
    · exact Or.inr ⟨s, by simp [hg], genAge_lt_of_genOlderThan t a s hg⟩
    · exact Or.inl (by simp [hg])

/-- Helper: the whole skew repair never raises the age of a set stamp. -/
theorem skewRepair_age (t : Tree) :
    (es : Entries) → ∀ (a b : Nat),
      Entries.skewRepair t es (some a) = some b → t.genAge b ≤ t.genAge a
  | .nil => by
    intro a b h
    rw [Entries.skewRepair] at h
    cases h
    exact le_refl _
  | .cons e rest => by
    intro a b h
    rw [Entries.skewRepair] at h
    rcases repairStep_age t a e with hkeep | ⟨s, hstep, hlt⟩
    · rw [hkeep] at h
      exact skewRepair_age t rest a b h
    · rw [hstep] at h
      exact le_trans (skewRepair_age t rest s b h) (le_of_lt hlt)

/-- Helper: the merge hook either keeps the receiver stamp or adopts a
stamp the comparator judged the receiver older than. -/
theorem mergeAfterGen_cases (tree : Option Tree) (own : Option Nat)
    (node : Option (Option Nat)) (ok : Bool) :
    mergeAfterGen tree own node ok = own ∨
      ∃ ng, genOlderThan tree own ng = true ∧
        mergeAfterGen tree own node ok = ng := by
  simp only [mergeAfterGen]
  split
  · rename_i hcond
    rw [Bool.and_eq_true] at hcond
    exact Or.inr ⟨_, hcond.2, rfl⟩
  · exact Or.inl rfl

/-- C7: the stamp only ever moves toward the current generation or stays
put — rejuvenation is idempotent, and for any stamp below the modulus it
resets the cyclic age to its minimum; the merge hook and the skew repair
in `wither` never raise the cyclic age of the stamp. -/
theorem stamp_forward :
    (∀ (tree : Option Tree) (g : Option Nat),
        rejuvenateGen tree (rejuvenateGen tree g) = rejuvenateGen tree g) ∧
    (∀ (t : Tree) (g : Nat), t.lifeSpanVal ≠ 0 → g < t.maxGeneration →
        rejuvenateGen (some t) (some g) = some t.currGen ∧
        t.genAge t.currGen ≤ t.genAge g) ∧
    (∀ (t : Tree) (a b : Nat) (node : Option (Option Nat)) (ok : Bool),
        mergeAfterGen (some t) (some a) node ok = some b →
        t.genAge b ≤ t.genAge a) ∧
    (∀ (t : Tree) (es : Entries) (a b : Nat),
        Entries.skewRepair t es (some a) = some b →
        t.genAge b ≤ t.genAge a) := by
  refine ⟨?_, ?_, ?_, fun t es a b h => skewRepair_age t es a b h⟩
  · intro tree g
    cases tree with
    | none => rfl
    | some t => by_cases h : t.lifeSpanVal ≠ 0 <;> simp [rejuvenateGen, h]
  · intro t g h1 h2
    refine ⟨by simp [rejuvenateGen, h1], ?_⟩
    simp only [Tree.genAge]
    split_ifs <;> omega
  · intro t a b node ok h
    rcases mergeAfterGen_cases (some t) (some a) node ok with hk | ⟨ng, hold, heq⟩
    · have hab := hk.symm.trans h
      injection hab with hab2
      subst hab2
      exact le_refl _
    · have hng : ng = some b := heq.symm.trans h
      subst hng
      exact le_of_lt (genAge_lt_of_genOlderThan t a b hold)

/-- C7 witness: rejuvenation at a concrete active tree resets the stamp to
the current generation without raising its age. -/
theorem stamp_forward_witness :
    rejuvenateGen (some ⟨some 10, 20, false, 100⟩) (some 5) = some 20 ∧
      Tree.genAge ⟨some 10, 20, false, 100⟩ 20 ≤
        Tree.genAge ⟨some 10, 20, false, 100⟩ 5 :=
  stamp_forward.2.1 ⟨some 10, 20, false, 100⟩ 5 (by decide) (by decide)

/-- C8: on a successful merge with tracking active, a truthy incoming
stamp on the same side of the current generation as the receiver stamp
leaves the numerically larger (more recent) of the two; in general the
decision is exactly the comparator asking whether the receiver is older
than the incoming stamp; merging stamp 5 into stamp 3 at current
generation 10 leaves 5. -/
theorem mergeAfter_freshness :
    (∀ (t : Tree) (a b : Nat), t.lifeSpanVal ≠ 0 → 0 < b →
        ((b ≤ t.currGen) ↔ (a ≤ t.currGen)) →
        mergeAfterGen (some t) (some a) (some (some b)) true = some (max a b)) ∧
    (∀ (tree : Option Tree) (own ng : Option Nat),
        stampTruthy ng = true →
        mergeAfterGen tree own (some ng) true =
          if genOlderThan tree own ng then ng else own) ∧
    mergeAfterGen (some ⟨some 10, 10, false, 100⟩) (some 3) (some (some 5)) true =
      some 5 := by
  refine ⟨?_, ?_, by decide⟩
  · intro t a b h1 hb hside
    have htr : stampTruthy (some b) = true := by
      simp [stampTruthy]; omega
    simp only [mergeAfterGen, htr, if_true, Bool.true_and]
    by_cases hab : a < b
    · rw [if_pos ((genOlderThan_some_iff t a b).mpr ⟨h1, hab, hside⟩)]
      rw [Nat.max_eq_right (le_of_lt hab)]
    · have : ¬ genOlderThan (some t) (some a) (some b) = true := by
        intro hc
        exact hab ((genOlderThan_some_iff t a b).mp hc).2.1
      rw [if_neg this, Nat.max_eq_left (Nat.not_lt.mp hab)]
  · intro tree own ng htr
    simp [mergeAfterGen, htr]

/-- C8 witness: the same-side maximum rule at receiver stamp 3, incoming
stamp 5, current generation 10. -/
theorem mergeAfter_freshness_witness :
    mergeAfterGen (some ⟨some 10, 10, false, 100⟩) (some 3) (some (some 5)) true =
      some (max 3 5) :=
  mergeAfter_freshness.1 ⟨some 10, 10, false, 100⟩ 3 5 (by decide) (by decide)
    (by decide)

/-- C9: a truthy `doNotWither` flag in the call configuration makes
`traverse` and `getUncachedRange` leave the stamp untouched; otherwise,
with tracking active, both wrapped operations leave the stamp equal to the
current generation. -/
theorem traversal_rejuvenation :
    ∀ (tree : Option Tree) (g : Option Nat) (p : Option Props),
      (doNotWitherFlag p = true →
        traverseGen tree g p = g ∧ getUncachedRangeGen tree g p = g) ∧
      (∀ t : Tree, tree = some t → doNotWitherFlag p = false →
        t.lifeSpanVal ≠ 0 →
        traverseGen tree g p = some t.currGen ∧
        getUncachedRangeGen tree g p = some t.currGen) := by
  intro tree g p
  constructor
  · intro h
    simp [traverseGen, getUncachedRangeGen, h]
  · rintro t rfl h1 h2
    simp [traverseGen, getUncachedRangeGen, rejuvenateGen, h1, h2]

/-- C9 witness: a traversal with absent `props` over a concrete active
tree rejuvenates the stamp to the current generation. -/
theorem traversal_rejuvenation_witness :
    traverseGen (some ⟨some 10, 7, false, 100⟩) (some 3) none = some 7 ∧
      getUncachedRangeGen (some ⟨some 10, 7, false, 100⟩) (some 3) none = some 7 :=
  (traversal_rejuvenation (some ⟨some 10, 7, false, 100⟩) (some 3) none).2
    ⟨some 10, 7, false, 100⟩ rfl rfl (by decide)

/-- C10: an absent incoming node, an unset incoming stamp or an incoming
stamp equal to zero makes `mergeAfter` fall back to the receiver stamp,
and because the comparator never judges a stamp older than itself, the
receiver stamp is unchanged — a zero stamp is effectively treated as
absent by the merge hook. -/
theorem merge_falsy_incoming :
    (∀ (tree : Option Tree) (own : Option Nat) (ok : Bool),
        mergeAfterGen tree own none ok = own ∧
        mergeAfterGen tree own (some none) ok = own ∧
        mergeAfterGen tree own (some (some 0)) ok = own) ∧
    (∀ (tree : Option Tree) (own : Option Nat),
        genOlderThan tree own own = false) := by
  have hself : ∀ (tree : Option Tree) (own : Option Nat),
      genOlderThan tree own own = false := by
    intro tree own
    cases tree with
    | none => rfl
    | some t =>
      cases own with
      | none => simp [genOlderThan, jsGt]
      | some a => simp [genOlderThan, jsGt]
  refine ⟨?_, hself⟩
  intro tree own ok
  refine ⟨?_, ?_, ?_⟩ <;> simp [mergeAfterGen, stampTruthy, hself]

end Withering
